import Mathlib

/-!
Shallow embedding of the undervolt-search loop of `src/bin/gui.rs`
(`GuiApp::update`, `save_record`) from the nvidia_oc repository.

The device-control and benchmark collaborators are injected as oracles:
`applyOk i e` says whether the device accepts write `e` during loop
iteration `i`, and `probe i` is the result of the benchmark run issued
in iteration `i` (`none` models instability).  Machine integers `u32`
and `i32` are modelled as `Nat` and `Int`; the single subtraction
`limit -= step_power` is guarded in the source by `limit < step_power`,
so `Nat` truncated subtraction agrees with the `u32` value.  The `f32`
fields `score` and `avg_power` are modelled as exact rationals.
-/

namespace NvidiaOc

/-- The tunable device state written by one candidate, mirroring the
fields the loop writes (`limit`, `freq`, `mem`, `min_clock`, `max_clock`). -/
structure Config where
  power_limit : Nat
  freq_offset : Int
  mem_offset : Int
  min_clock : Nat
  max_clock : Nat
deriving Repr, DecidableEq

/-- Result of a successful benchmark probe (`BenchResult` in the source). -/
structure BenchResult where
  score : ℚ
  avg_power : ℚ
deriving Repr, DecidableEq

/-- One recorded observation (`Record` in the source). -/
structure Record where
  power_limit : Nat
  freq_offset : Int
  mem_offset : Int
  min_clock : Nat
  max_clock : Nat
  score : ℚ
  avg_power : ℚ
deriving Repr, DecidableEq

/-- The two supported-clock tables (`SupportedClocks` in the source),
each sorted ascending by the data source. -/
structure SupportedClocks where
  graphics : List Nat
  memory : List Nat
deriving Repr, DecidableEq

/-- The values read from the device before the loop starts:
`default_limit`, `default_freq_offset`, `default_mem_offset`,
`base_graphics`, `base_memory`, `default_clock` in the source. -/
structure Baseline where
  default_limit : Nat
  default_freq_offset : Int
  default_mem_offset : Int
  base_graphics : Nat
  base_memory : Nat
  default_clock : Nat
deriving Repr, DecidableEq

/-- A write issued to the device-control capability. -/
inductive Ev where
  | power (v : Nat)
  | freq (v : Int)
  | mem (v : Int)
  | lock (mn mx : Nat)
deriving Repr, DecidableEq

/-- `let step_power = 5_000;` in the source. -/
def stepPower : Nat := 5000

/-- `clocks.iter().rev().filter(|&&c| c <= base).map(|&c| c as i32 - base as i32).collect()`:
the offset step sequence for one clock axis. -/
def offsetSteps (clocks : List Nat) (base : Nat) : List Int :=
  ((clocks.reverse.filter fun c => decide (c ≤ base)).map
    fun (c : Nat) => (c : Int) - (base : Int))

/-- `clocks.iter().rev().filter(|&&c| c <= cap).cloned().collect()`:
the locked-max-clock step sequence. -/
def capSteps (clocks : List Nat) (cap : Nat) : List Nat :=
  clocks.reverse.filter fun c => decide (c ≤ cap)

/-- `freq_steps` in the source: graphics table against the observed
graphics clock, or empty when the table is absent (`unwrap_or_default`). -/
def freqStepsRun (sup : Option SupportedClocks) (b : Baseline) : List Int :=
  match sup with
  | none => []
  | some s => offsetSteps s.graphics b.base_graphics

/-- `mem_steps` in the source. -/
def memStepsRun (sup : Option SupportedClocks) (b : Baseline) : List Int :=
  match sup with
  | none => []
  | some s => offsetSteps s.memory b.base_memory

/-- `clock_steps` in the source: graphics table against the maximum
graphics clock. -/
def capStepsRun (sup : Option SupportedClocks) (b : Baseline) : List Nat :=
  match sup with
  | none => []
  | some s => capSteps s.graphics b.default_clock

/-- Truncating three sequences to their common length, so that one list
element corresponds to one index `i < iterations` of the source's
`for i in 0..iterations` with
`iterations = freq_steps.len().min(mem_steps.len()).min(clock_steps.len())`. -/
def zip3 : List Int → List Int → List Nat → List (Int × Int × Nat)
  | f :: fs, m :: ms, c :: cs => (f, m, c) :: zip3 fs ms cs
  | _, _, _ => []

/-- The four sub-writes of one candidate, in source order. -/
def candEvents (c : Config) : List Ev :=
  [Ev.power c.power_limit, Ev.freq c.freq_offset, Ev.mem c.mem_offset,
   Ev.lock c.min_clock c.max_clock]

/-- Whether the whole candidate applies: the source breaks if any of the
four sub-writes errors (`is_err() || ... || is_err()`). -/
def applyAll (ok : Ev → Bool) (c : Config) : Bool :=
  ok (Ev.power c.power_limit) && ok (Ev.freq c.freq_offset) &&
  ok (Ev.mem c.mem_offset) && ok (Ev.lock c.min_clock c.max_clock)

/-- The sub-writes actually issued for one candidate: the `||` chain in
the source short-circuits, so writes after the first failure are not
attempted. -/
def applyEvs (ok : Ev → Bool) (c : Config) : List Ev :=
  if ok (Ev.power c.power_limit) then
    if ok (Ev.freq c.freq_offset) then
      if ok (Ev.mem c.mem_offset) then
        [Ev.power c.power_limit, Ev.freq c.freq_offset, Ev.mem c.mem_offset,
         Ev.lock c.min_clock c.max_clock]
      else [Ev.power c.power_limit, Ev.freq c.freq_offset, Ev.mem c.mem_offset]
    else [Ev.power c.power_limit, Ev.freq c.freq_offset]
  else [Ev.power c.power_limit]

/-- The four baseline writes: issued both in the `// revert and stop`
branch and unconditionally after the loop (`min_clock` is the constant 0). -/
def restoreEvents (b : Baseline) : List Ev :=
  [Ev.power b.default_limit, Ev.freq b.default_freq_offset,
   Ev.mem b.default_mem_offset, Ev.lock 0 b.default_clock]

/-- Everything the loop produces: the writes issued, the records pushed
(in push order), the probed candidates as (iteration, configuration)
pairs, and every candidate configuration an application was attempted for. -/
structure RunOut where
  trace : List Ev
  recs : List Record
  probed : List (Nat × Config)
  cands : List Config
deriving Repr, DecidableEq

/-- The record pushed after a successful probe of configuration `c`. -/
def recordOf (c : Config) (r : BenchResult) : Record :=
  ⟨c.power_limit, c.freq_offset, c.mem_offset, c.min_clock, c.max_clock,
   r.score, r.avg_power⟩

/-- The candidate built at the top of one loop iteration entered with
power limit `limit` and step entry `s`: `limit -= step_power;
freq = default_freq_offset + freq_steps[i]; mem = default_mem_offset +
mem_steps[i]; max_clock = clock_steps[i]` with `min_clock = 0`. -/
def stepCfg (b : Baseline) (limit : Nat) (s : Int × Int × Nat) : Config :=
  ⟨limit - stepPower, b.default_freq_offset + s.1,
   b.default_mem_offset + s.2.1, 0, s.2.2⟩

/-- The `for i in 0..iterations` body of `GuiApp::update`: guard
`limit < step_power`, decrement, build the candidate from the defaults
plus the step entries (the source reassigns `freq`, `mem`, `max_clock`
from the defaults each iteration; only `limit` carries over), apply with
short-circuit, probe, push/record on success, revert-and-break on
instability, break on apply failure. -/
def runLoop (b : Baseline) (applyOk : Nat → Ev → Bool)
    (probe : Nat → Option BenchResult) :
    List (Int × Int × Nat) → Nat → Nat → RunOut
  | [], _, _ => ⟨[], [], [], []⟩
  | s :: rest, i, limit =>
    if limit < stepPower then ⟨[], [], [], []⟩
    else
      let cfg : Config := stepCfg b limit s
      if applyAll (applyOk i) cfg then
        match probe i with
        | some r =>
          let out := runLoop b applyOk probe rest (i + 1) (limit - stepPower)
          ⟨candEvents cfg ++ out.trace, recordOf cfg r :: out.recs,
           (i, cfg) :: out.probed, cfg :: out.cands⟩
        | none =>
          ⟨candEvents cfg ++ restoreEvents b, [], [(i, cfg)], [cfg]⟩
      else ⟨applyEvs (applyOk i) cfg, [], [], [cfg]⟩

/-- The whole run started by the "Start Undervolt Search" button: compute
the three step sequences, run the loop from the baseline power limit, and
always issue the final baseline restoration writes afterwards. -/
def runSearch (b : Baseline) (sup : Option SupportedClocks)
    (applyOk : Nat → Ev → Bool) (probe : Nat → Option BenchResult) : RunOut :=
  let steps := zip3 (freqStepsRun sup b) (memStepsRun sup b) (capStepsRun sup b)
  let out := runLoop b applyOk probe steps 0 b.default_limit
  ⟨out.trace ++ restoreEvents b, out.recs, out.probed, out.cands⟩

/-- The configuration attempted at loop index `j` when the loop starts
from power limit `limit`. -/
def candAt (b : Baseline) (limit : Nat) (steps : List (Int × Int × Nat))
    (j : Nat) : Config :=
  ⟨limit - stepPower * (j + 1),
   b.default_freq_offset + (steps.getD j (0, 0, 0)).1,
   b.default_mem_offset + (steps.getD j (0, 0, 0)).2.1,
   0, (steps.getD j (0, 0, 0)).2.2⟩

/-- The configuration part of a record. -/
def configOf (r : Record) : Config :=
  ⟨r.power_limit, r.freq_offset, r.mem_offset, r.min_clock, r.max_clock⟩

/-- The power-limit values among a list of issued writes. -/
def powerWrites (evs : List Ev) : List Nat :=
  evs.filterMap fun e =>
    match e with
    | Ev.power v => some v
    | _ => none

/-- Default configuration used with `List.getD`. -/
def cfg0 : Config := ⟨0, 0, 0, 0, 0⟩

/-- Default record used with `List.getD`. -/
def rec0 : Record := ⟨0, 0, 0, 0, 0, 0, 0⟩

/-- Rounding `q * s` to the nearest integer with ties to even — the
rounding Rust float formatting performs, for a value modelled exactly.
Computed on the numerator and denominator: with `n = q.num * s` and
`d = q.den`, the floor of `n / d` is `n.fdiv d` and the fractional part
compares to `1 / 2` as `2 * (n - f * d)` compares to `d`. -/
def roundHalfEven (q : ℚ) (s : ℤ) : ℤ :=
  let n := q.num * s
  let d : ℤ := (q.den : ℤ)
  let f := n.fdiv d
  let r := 2 * (n - f * d)
  if r < d then f
  else if d < r then f + 1
  else if f % 2 = 0 then f else f + 1

/-- The `{:.0}` field of `save_record`. -/
def fmtInt (q : ℚ) : String :=
  toString (roundHalfEven q 1)

/-- The `{:.2}` field of `save_record`: two decimal places. -/
def fmtTwo (q : ℚ) : String :=
  let n := roundHalfEven q 100
  let a := n.natAbs
  (if n < 0 then "-" else "") ++ toString (a / 100) ++ "." ++
    (if a % 100 < 10 then "0" else "") ++ toString (a % 100)

/-- The header line `save_record` writes once to a fresh file. -/
def header : String :=
  "power_limit_w,freq_offset,mem_offset,min_clock,max_clock,score,avg_power_w"

/-- One data line of `save_record`:
`"{},{},{},{},{},{:.0},{:.2}"` over `power_limit / 1000`, the offsets,
the clock range, score and average power. -/
def dataLine (r : Record) : String :=
  toString (r.power_limit / 1000) ++ "," ++ toString r.freq_offset ++ "," ++
    toString r.mem_offset ++ "," ++ toString r.min_clock ++ "," ++
    toString r.max_clock ++ "," ++ fmtInt r.score ++ "," ++ fmtTwo r.avg_power

/-- One `save_record` call against the store: `none` models an absent
file (`new_file = !path.exists()`), in which case the header is written
before the first row; otherwise the row is appended. -/
def saveRecord : Option (List String) → Record → Option (List String)
  | none, r => some [header, dataLine r]
  | some ls, r => some (ls ++ [dataLine r])

/-- Saving a sequence of records one at a time, as the loop does
(`save_record(self.records.last().unwrap())` after each push), starting
from a fresh (absent) store. -/
def saveAll (rs : List Record) : Option (List String) :=
  rs.foldl saveRecord none

/-- Oracle: every device write is accepted. -/
def okT : Nat → Ev → Bool := fun _ _ => true

/-- Oracle: every probe succeeds (the placeholder `run_benchmark`). -/
def probeT : Nat → Option BenchResult := fun _ => some ⟨0, 0⟩

/-- Oracle: the very first probe reports instability, all later ones
succeed. -/
def probeU : Nat → Option BenchResult := fun i => if i = 0 then none else some ⟨0, 0⟩

/-- Baseline with power limit 150000 mW and no clock information. -/
def bA : Baseline := ⟨150000, 0, 0, 0, 0, 0⟩

/-- Baseline with power limit 150000 mW, graphics clock 2000 MHz,
memory clock 3000 MHz, maximum graphics clock 2000 MHz. -/
def bC : Baseline := ⟨150000, 0, 0, 2000, 3000, 2000⟩

/-- Supported-clock table with three entries per axis, the largest equal
to the corresponding baseline clock. -/
def supB : Option SupportedClocks := some ⟨[1980, 1990, 2000], [2800, 2900, 3000]⟩

/-- Supported-clock table with two entries per axis, the largest equal
to the corresponding baseline clock. -/
def supC : Option SupportedClocks := some ⟨[1990, 2000], [2900, 3000]⟩

/-- Supported-clock table whose graphics entries are all strictly below
the baseline graphics clock, so even the first offset step is nonzero. -/
def supD : Option SupportedClocks := some ⟨[1980, 1990], [2900, 3000]⟩

theorem runLoop_nil (b : Baseline) (a : Nat → Ev → Bool)
    (p : Nat → Option BenchResult) (i limit : Nat) :
    runLoop b a p [] i limit = ⟨[], [], [], []⟩ := rfl

theorem runLoop_cons_guard (b : Baseline) (a : Nat → Ev → Bool)
    (p : Nat → Option BenchResult) (s : Int × Int × Nat)
    (rest : List (Int × Int × Nat)) (i limit : Nat) (h : limit < stepPower) :
    runLoop b a p (s :: rest) i limit = ⟨[], [], [], []⟩ := by
  simp [runLoop, h]

theorem runLoop_cons_fail (b : Baseline) (a : Nat → Ev → Bool)
    (p : Nat → Option BenchResult) (s : Int × Int × Nat)
    (rest : List (Int × Int × Nat)) (i limit : Nat) (h : ¬ limit < stepPower)
    (ha : applyAll (a i) (stepCfg b limit s) = false) :
    runLoop b a p (s :: rest) i limit =
      ⟨applyEvs (a i) (stepCfg b limit s), [], [], [stepCfg b limit s]⟩ := by
  simp [runLoop, h, ha]

theorem runLoop_cons_instab (b : Baseline) (a : Nat → Ev → Bool)
    (p : Nat → Option BenchResult) (s : Int × Int × Nat)
    (rest : List (Int × Int × Nat)) (i limit : Nat) (h : ¬ limit < stepPower)
    (ha : applyAll (a i) (stepCfg b limit s) = true) (hp : p i = none) :
    runLoop b a p (s :: rest) i limit =
      ⟨candEvents (stepCfg b limit s) ++ restoreEvents b, [],
       [(i, stepCfg b limit s)], [stepCfg b limit s]⟩ := by
  simp [runLoop, h, ha, hp]

theorem runLoop_cons_ok (b : Baseline) (a : Nat → Ev → Bool)
    (p : Nat → Option BenchResult) (s : Int × Int × Nat)
    (rest : List (Int × Int × Nat)) (i limit : Nat) (r : BenchResult)
    (h : ¬ limit < stepPower)
    (ha : applyAll (a i) (stepCfg b limit s) = true) (hp : p i = some r) :
    runLoop b a p (s :: rest) i limit =
      ⟨candEvents (stepCfg b limit s) ++
         (runLoop b a p rest (i + 1) (limit - stepPower)).trace,
       recordOf (stepCfg b limit s) r ::
         (runLoop b a p rest (i + 1) (limit - stepPower)).recs,
       (i, stepCfg b limit s) ::
         (runLoop b a p rest (i + 1) (limit - stepPower)).probed,
       stepCfg b limit s ::
         (runLoop b a p rest (i + 1) (limit - stepPower)).cands⟩ := by
  simp [runLoop, h, ha, hp]

theorem zip3_length (f m : List Int) (c : List Nat) :
    (zip3 f m c).length = min f.length (min m.length c.length) := by
  induction f generalizing m c with
  | nil => simp [zip3]
  | cons fh ft ih =>
    cases m with
    | nil => simp [zip3]
    | cons mh mt =>
      cases c with
      | nil => simp [zip3]
      | cons ch ct =>
        simp only [zip3, List.length_cons, ih, Nat.succ_min_succ]

theorem zip3_getD (f m : List Int) (c : List Nat) (j : Nat)
    (hj : j < (zip3 f m c).length) :
    (zip3 f m c).getD j (0, 0, 0) = (f.getD j 0, m.getD j 0, c.getD j 0) := by
  induction f generalizing m c j with
  | nil => simp [zip3] at hj
  | cons fh ft ih =>
    cases m with
    | nil => simp [zip3] at hj
    | cons mh mt =>
      cases c with
      | nil => simp [zip3] at hj
      | cons ch ct =>
        cases j with
        | zero => rfl
        | succ j =>
          simp only [zip3, List.length_cons, Nat.succ_lt_succ_iff] at hj
          simpa [zip3] using ih mt ct j hj

theorem candAt_zero (b : Baseline) (limit : Nat) (s : Int × Int × Nat)
    (rest : List (Int × Int × Nat)) :
    candAt b limit (s :: rest) 0 = stepCfg b limit s := by
  simp [candAt, stepCfg]

theorem candAt_succ (b : Baseline) (limit : Nat) (s : Int × Int × Nat)
    (rest : List (Int × Int × Nat)) (j : Nat) :
    candAt b (limit - stepPower) rest j = candAt b limit (s :: rest) (j + 1) := by
  simp only [candAt, List.getD_cons_succ, Nat.sub_sub]
  have : stepPower + stepPower * (j + 1) = stepPower * (j + 1 + 1) := by ring
  rw [this]

theorem runLoop_cands_spec (b : Baseline) (a : Nat → Ev → Bool)
    (p : Nat → Option BenchResult) :
    ∀ (steps : List (Int × Int × Nat)) (i limit j : Nat),
      j < (runLoop b a p steps i limit).cands.length →
      (runLoop b a p steps i limit).cands.getD j cfg0 = candAt b limit steps j ∧
        stepPower * (j + 1) ≤ limit ∧ j < steps.length
  | [], i, limit, j => by
    intro hj
    simp [runLoop_nil] at hj
  | s :: rest, i, limit, j => by
    intro hj
    by_cases hl : limit < stepPower
    · rw [runLoop_cons_guard b a p s rest i limit hl] at hj
      simp at hj
    · have hle : stepPower ≤ limit := Nat.le_of_not_lt hl
      by_cases ha : applyAll (a i) (stepCfg b limit s) = true
      · cases hp : p i with
        | some r =>
          rw [runLoop_cons_ok b a p s rest i limit r hl ha hp] at hj ⊢
          cases j with
          | zero =>
            refine ⟨?_, by simpa using hle, by simp⟩
            simp [candAt_zero]
          | succ j =>
            simp only [List.length_cons, Nat.succ_lt_succ_iff] at hj
            obtain ⟨h1, h2, h3⟩ :=
              runLoop_cands_spec b a p rest (i + 1) (limit - stepPower) j hj
            refine ⟨?_, ?_, by simpa using h3⟩
            · simpa [candAt_succ b limit s rest j] using h1
            · have := (Nat.le_sub_iff_add_le hle).mp h2
              calc stepPower * (j + 1 + 1) = stepPower * (j + 1) + stepPower := by ring
                _ ≤ limit := this
        | none =>
          rw [runLoop_cons_instab b a p s rest i limit hl ha hp] at hj ⊢
          have hj0 : j = 0 := Nat.lt_one_iff.mp (by simpa using hj)
          subst hj0
          exact ⟨by simp [candAt_zero], by simpa using hle, by simp⟩
      · rw [runLoop_cons_fail b a p s rest i limit hl
          (by simpa using ha)] at hj ⊢
        have hj0 : j = 0 := Nat.lt_one_iff.mp (by simpa using hj)
        subst hj0
        exact ⟨by simp [candAt_zero], by simpa using hle, by simp⟩

theorem runLoop_probed_spec (b : Baseline) (a : Nat → Ev → Bool)
    (p : Nat → Option BenchResult) :
    ∀ (steps : List (Int × Int × Nat)) (i limit j : Nat),
      j < (runLoop b a p steps i limit).probed.length →
      (runLoop b a p steps i limit).probed.getD j (0, cfg0) =
          (i + j, candAt b limit steps j) ∧
        applyAll (a (i + j)) (candAt b limit steps j) = true
  | [], i, limit, j => by
    intro hj
    simp [runLoop_nil] at hj
  | s :: rest, i, limit, j => by
    intro hj
    by_cases hl : limit < stepPower
    · rw [runLoop_cons_guard b a p s rest i limit hl] at hj
      simp at hj
    · by_cases ha : applyAll (a i) (stepCfg b limit s) = true
      · cases hp : p i with
        | some r =>
          rw [runLoop_cons_ok b a p s rest i limit r hl ha hp] at hj ⊢
          cases j with
          | zero => simpa [candAt_zero] using ha
          | succ j =>
            simp only [List.length_cons, Nat.succ_lt_succ_iff] at hj
            obtain ⟨h1, h2⟩ :=
              runLoop_probed_spec b a p rest (i + 1) (limit - stepPower) j hj
            have hi : i + 1 + j = i + (j + 1) := by ring
            rw [hi] at h1 h2
            refine ⟨?_, by simpa [candAt_succ b limit s rest j] using h2⟩
            simpa [candAt_succ b limit s rest j] using h1
        | none =>
          rw [runLoop_cons_instab b a p s rest i limit hl ha hp] at hj ⊢
          have hj0 : j = 0 := Nat.lt_one_iff.mp (by simpa using hj)
          subst hj0
          simpa [candAt_zero] using ha
      · rw [runLoop_cons_fail b a p s rest i limit hl
          (by simpa using ha)] at hj
        simp at hj

theorem runLoop_recs_spec (b : Baseline) (a : Nat → Ev → Bool)
    (p : Nat → Option BenchResult) :
    ∀ (steps : List (Int × Int × Nat)) (i limit j : Nat),
      j < (runLoop b a p steps i limit).recs.length →
      ∃ r : BenchResult, p (i + j) = some r ∧
        (runLoop b a p steps i limit).recs.getD j rec0 =
          recordOf (candAt b limit steps j) r
  | [], i, limit, j => by
    intro hj
    simp [runLoop_nil] at hj
  | s :: rest, i, limit, j => by
    intro hj
    by_cases hl : limit < stepPower
    · rw [runLoop_cons_guard b a p s rest i limit hl] at hj
      simp at hj
    · by_cases ha : applyAll (a i) (stepCfg b limit s) = true
      · cases hp : p i with
        | some r =>
          rw [runLoop_cons_ok b a p s rest i limit r hl ha hp] at hj ⊢
          cases j with
          | zero => exact ⟨r, by simpa using hp, by simp [candAt_zero]⟩
          | succ j =>
            simp only [List.length_cons, Nat.succ_lt_succ_iff] at hj
            obtain ⟨r', h1, h2⟩ :=
              runLoop_recs_spec b a p rest (i + 1) (limit - stepPower) j hj
            have hi : i + 1 + j = i + (j + 1) := by ring
            rw [hi] at h1
            exact ⟨r', h1, by simpa [candAt_succ b limit s rest j] using h2⟩
        | none =>
          rw [runLoop_cons_instab b a p s rest i limit hl ha hp] at hj
          simp at hj
      · rw [runLoop_cons_fail b a p s rest i limit hl
          (by simpa using ha)] at hj
        simp at hj

theorem runLoop_len_spec (b : Baseline) (a : Nat → Ev → Bool)
    (p : Nat → Option BenchResult) :
    ∀ (steps : List (Int × Int × Nat)) (i limit : Nat),
      (runLoop b a p steps i limit).recs.length ≤
          (runLoop b a p steps i limit).probed.length ∧
        (runLoop b a p steps i limit).probed.length ≤
          (runLoop b a p steps i limit).cands.length ∧
        (runLoop b a p steps i limit).cands.length ≤ steps.length
  | [], i, limit => by simp [runLoop_nil]
  | s :: rest, i, limit => by
    by_cases hl : limit < stepPower
    · rw [runLoop_cons_guard b a p s rest i limit hl]
      simp
    · by_cases ha : applyAll (a i) (stepCfg b limit s) = true
      · cases hp : p i with
        | some r =>
          rw [runLoop_cons_ok b a p s rest i limit r hl ha hp]
          obtain ⟨h1, h2, h3⟩ :=
            runLoop_len_spec b a p rest (i + 1) (limit - stepPower)
          exact ⟨by simpa using h1, by simpa using h2, by simpa using h3⟩
        | none =>
          rw [runLoop_cons_instab b a p s rest i limit hl ha hp]
          simp
      · rw [runLoop_cons_fail b a p s rest i limit hl (by simpa using ha)]
        simp

theorem runLoop_instab_last (b : Baseline) (a : Nat → Ev → Bool)
    (p : Nat → Option BenchResult) :
    ∀ (steps : List (Int × Int × Nat)) (i limit j : Nat),
      j < (runLoop b a p steps i limit).probed.length →
      (p (i + j)).isNone = true →
      j + 1 = (runLoop b a p steps i limit).probed.length ∧
        (runLoop b a p steps i limit).recs.length = j
  | [], i, limit, j => by
    intro hj _
    simp [runLoop_nil] at hj
  | s :: rest, i, limit, j => by
    intro hj hnone
    by_cases hl : limit < stepPower
    · rw [runLoop_cons_guard b a p s rest i limit hl] at hj
      simp at hj
    · by_cases ha : applyAll (a i) (stepCfg b limit s) = true
      · cases hp : p i with
        | some r =>
          rw [runLoop_cons_ok b a p s rest i limit r hl ha hp] at hj ⊢
          cases j with
          | zero =>
            rw [Nat.add_zero, hp] at hnone
            simp at hnone
          | succ j =>
            simp only [List.length_cons, Nat.succ_lt_succ_iff] at hj
            have hi : i + (j + 1) = i + 1 + j := by ring
            rw [hi] at hnone
            obtain ⟨h1, h2⟩ :=
              runLoop_instab_last b a p rest (i + 1) (limit - stepPower) j hj hnone
            exact ⟨by simp [← h1], by simp [h2]⟩
        | none =>
          rw [runLoop_cons_instab b a p s rest i limit hl ha hp] at hj ⊢
          have hj0 : j = 0 := Nat.lt_one_iff.mp (by simpa using hj)
          subst hj0
          simp
      · rw [runLoop_cons_fail b a p s rest i limit hl
          (by simpa using ha)] at hj
        simp at hj

theorem drop_append_restore (l : List Ev) (b : Baseline) :
    (l ++ restoreEvents b).drop ((l ++ restoreEvents b).length - 4) =
      restoreEvents b := by
  have h4 : (restoreEvents b).length = 4 := rfl
  rw [List.length_append, h4, Nat.add_sub_cancel, List.drop_left]

theorem configOf_recordOf (c : Config) (r : BenchResult) :
    configOf (recordOf c r) = c := rfl

theorem saveAll_go (rs : List Record) (ls : List String) :
    rs.foldl saveRecord (some ls) = some (ls ++ rs.map dataLine) := by
  induction rs generalizing ls with
  | nil => simp
  | cons r rest ih => simp [saveRecord, ih]

theorem runSearch_cands (b : Baseline) (sup : Option SupportedClocks)
    (a : Nat → Ev → Bool) (p : Nat → Option BenchResult) :
    (runSearch b sup a p).cands =
      (runLoop b a p
        (zip3 (freqStepsRun sup b) (memStepsRun sup b) (capStepsRun sup b))
        0 b.default_limit).cands := rfl

theorem runSearch_probed (b : Baseline) (sup : Option SupportedClocks)
    (a : Nat → Ev → Bool) (p : Nat → Option BenchResult) :
    (runSearch b sup a p).probed =
      (runLoop b a p
        (zip3 (freqStepsRun sup b) (memStepsRun sup b) (capStepsRun sup b))
        0 b.default_limit).probed := rfl

theorem runSearch_recs (b : Baseline) (sup : Option SupportedClocks)
    (a : Nat → Ev → Bool) (p : Nat → Option BenchResult) :
    (runSearch b sup a p).recs =
      (runLoop b a p
        (zip3 (freqStepsRun sup b) (memStepsRun sup b) (capStepsRun sup b))
        0 b.default_limit).recs := rfl

/-- Claim C1: for every sequence of apply-failure and instability outcomes
produced by the collaborators (including instability on the very first
candidate), after the search loop finishes the last writes issued to the
device are exactly the baseline power limit, baseline frequency offset,
baseline memory offset, and locked-clock range [0, baseline max clock];
the restoration is performed on every exit path of the run. -/
theorem c1_baseline_restoration (b : Baseline) (sup : Option SupportedClocks)
    (a : Nat → Ev → Bool) (p : Nat → Option BenchResult) :
    (runSearch b sup a p).trace.drop ((runSearch b sup a p).trace.length - 4) =
      [Ev.power b.default_limit, Ev.freq b.default_freq_offset,
       Ev.mem b.default_mem_offset, Ev.lock 0 b.default_clock] := by
  have h : (runSearch b sup a p).trace =
      (runLoop b a p
        (zip3 (freqStepsRun sup b) (memStepsRun sup b) (capStepsRun sup b))
        0 b.default_limit).trace ++ restoreEvents b := rfl
  rw [h, drop_append_restore]
  rfl

/-- Claim C2 counterexample: with baseline power limit 150000 mW,
step 5000 mW, the supported-clock table absent and the probe always
succeeding, the run does NOT produce floor(150000 / 5000) = 30 records
(it produces none: with the table absent all three step sequences are
empty and the loop body never runs, so no power-limit descent happens). -/
theorem c2_counterexample :
    ¬ (runSearch bA none okT probeT).recs.length = 150000 / 5000 := by decide

/-- Claim C2 amended: with baseline power limit 150000 mW and the
supported-clock table absent, both candidate step sequences are empty, so
the candidate loop performs zero iterations and produces zero Records,
for every apply and probe oracle; the only device writes of the run are
the final restoration, whose first write restores power_limit = 150000. -/
theorem c2_amended (a : Nat → Ev → Bool) (p : Nat → Option BenchResult) :
    (runSearch bA none a p).recs = [] ∧
      (runSearch bA none a p).trace =
        [Ev.power 150000, Ev.freq 0, Ev.mem 0, Ev.lock 0 0] :=
  ⟨rfl, rfl⟩

/-- Claim C3 counterexample: instability is fatal to the run, not
budgeted to 3.  With three candidate steps available, apply always
succeeding and the probe reporting instability only on the very first
candidate (one instability, fewer than 3), the run does not continue:
the only candidate power write is 145000, followed by the revert write
and the final restoration write of 150000; the next candidate (140000)
is never issued and no record is produced. -/
theorem c3_counterexample :
    powerWrites (runSearch bC supB okT probeU).trace =
        [145000, 150000, 150000] ∧
      (140000 : Nat) ∉ powerWrites (runSearch bC supB okT probeU).trace ∧
      (runSearch bC supB okT probeU).recs = [] := by decide

/-- Claim C3 amended: there is no crash counter.  The first instability
signal ends the whole run: the probe call that returns instability is
always the last probe call of the run (its index is the last index of
the probed sequence), and exactly the records of the earlier, successful
iterations exist at that point. -/
theorem c3_amended (b : Baseline) (sup : Option SupportedClocks)
    (a : Nat → Ev → Bool) (p : Nat → Option BenchResult) (j : Nat)
    (hj : j < (runSearch b sup a p).probed.length)
    (hnone : (p j).isNone = true) :
    j + 1 = (runSearch b sup a p).probed.length ∧
      (runSearch b sup a p).recs.length = j := by
  have h := runLoop_instab_last b a p
    (zip3 (freqStepsRun sup b) (memStepsRun sup b) (capStepsRun sup b))
    0 b.default_limit j hj (by simpa using hnone)
  exact h

/-- Witness for the amended C3 at a concrete run: instability on probe 0
makes it the only probe call, with zero records. -/
theorem c3_amended_witness :
    0 < (runSearch bC supB okT probeU).probed.length ∧
      (0 + 1 = (runSearch bC supB okT probeU).probed.length ∧
        (runSearch bC supB okT probeU).recs.length = 0) :=
  ⟨by decide, c3_amended bC supB okT probeU 0 (by decide) (by decide)⟩

/-- Claim C4 counterexample: candidates do not differ from the previous
accepted configuration only in power_limit.  In a concrete run with all
writes and probes succeeding, the second applied candidate changes
freq_offset (0 to -10), mem_offset (0 to -100) and max_clock (2000 to
1990) at the same time as the power limit drops from 145000 to 140000:
the other axes are not held fixed while power is being decreased. -/
theorem c4_counterexample :
    (runSearch bC supC okT probeT).cands.getD 0 cfg0 =
        ⟨145000, 0, 0, 0, 2000⟩ ∧
      (runSearch bC supC okT probeT).cands.getD 1 cfg0 =
        ⟨140000, -10, -100, 0, 1990⟩ ∧
      ¬ (((runSearch bC supC okT probeT).cands.getD 1 cfg0).freq_offset =
            ((runSearch bC supC okT probeT).cands.getD 0 cfg0).freq_offset ∧
          ((runSearch bC supC okT probeT).cands.getD 1 cfg0).mem_offset =
            ((runSearch bC supC okT probeT).cands.getD 0 cfg0).mem_offset ∧
          ((runSearch bC supC okT probeT).cands.getD 1 cfg0).max_clock =
            ((runSearch bC supC okT probeT).cands.getD 0 cfg0).max_clock) := by
  decide

/-- Claim C4 amended: there is a single candidate loop, and every applied
candidate simultaneously decreases power_limit by 5000 per iteration and
sets freq_offset, mem_offset and the locked max clock from index j of the
three step sequences; no axis is held fixed. -/
theorem c4_amended (b : Baseline) (sup : Option SupportedClocks)
    (a : Nat → Ev → Bool) (p : Nat → Option BenchResult) (j : Nat)
    (hj : j < (runSearch b sup a p).cands.length) :
    (runSearch b sup a p).cands.getD j cfg0 =
      ⟨b.default_limit - stepPower * (j + 1),
       b.default_freq_offset + (freqStepsRun sup b).getD j 0,
       b.default_mem_offset + (memStepsRun sup b).getD j 0,
       0, (capStepsRun sup b).getD j 0⟩ := by
  obtain ⟨h1, h2, h3⟩ := runLoop_cands_spec b a p
    (zip3 (freqStepsRun sup b) (memStepsRun sup b) (capStepsRun sup b))
    0 b.default_limit j hj
  rw [runSearch_cands, h1]
  unfold candAt
  rw [zip3_getD _ _ _ j h3]

/-- Witness for the amended C4 at a concrete run, at candidate index 1. -/
theorem c4_amended_witness :
    1 < (runSearch bC supC okT probeT).cands.length ∧
      (runSearch bC supC okT probeT).cands.getD 1 cfg0 =
        ⟨bC.default_limit - stepPower * (1 + 1),
         bC.default_freq_offset + (freqStepsRun supC bC).getD 1 0,
         bC.default_mem_offset + (memStepsRun supC bC).getD 1 0,
         0, (capStepsRun supC bC).getD 1 0⟩ :=
  ⟨by decide, c4_amended bC supC okT probeT 1 (by decide)⟩

/-- Claim C5 counterexample: the power limit is never relaxed.  In a
concrete run in which every write and every probe succeeds (so no crash
budget could have been exhausted), the run terminates after the two
available steps with applied power limits 145000 then 140000, strictly
decreasing, and the relaxed value 140000 + 5000 is still strictly below
the baseline limit 150000 — so the run did not terminate because a
relaxed power limit reached the baseline, and no applied power limit
ever rose. -/
theorem c5_counterexample :
    (runSearch bC supC okT probeT).cands.map (fun c => c.power_limit) =
        [145000, 140000] ∧
      (runSearch bC supC okT probeT).probed.length = 2 ∧
      (runSearch bC supC okT probeT).recs.length = 2 ∧
      140000 + stepPower < bC.default_limit := by decide

/-- Claim C5 amended: there is no relaxation step.  Across any run, each
applied candidate's power limit is exactly 5000 mW below the previous
candidate's; the applied power limit never rises. -/
theorem c5_amended (b : Baseline) (sup : Option SupportedClocks)
    (a : Nat → Ev → Bool) (p : Nat → Option BenchResult) (j : Nat)
    (hj : j + 1 < (runSearch b sup a p).cands.length) :
    ((runSearch b sup a p).cands.getD (j + 1) cfg0).power_limit + stepPower =
      ((runSearch b sup a p).cands.getD j cfg0).power_limit := by
  obtain ⟨h1, h2, h3⟩ := runLoop_cands_spec b a p
    (zip3 (freqStepsRun sup b) (memStepsRun sup b) (capStepsRun sup b))
    0 b.default_limit j (Nat.lt_of_succ_lt hj)
  obtain ⟨g1, g2, g3⟩ := runLoop_cands_spec b a p
    (zip3 (freqStepsRun sup b) (memStepsRun sup b) (capStepsRun sup b))
    0 b.default_limit (j + 1) hj
  rw [runSearch_cands, h1, g1]
  simp only [candAt]
  have hmul : stepPower * (j + 1 + 1) = stepPower * (j + 1) + stepPower := by
    ring
  rw [hmul] at g2 ⊢
  omega

/-- Witness for the amended C5 at a concrete run, at candidate index 0. -/
theorem c5_amended_witness :
    0 + 1 < (runSearch bC supC okT probeT).cands.length ∧
      ((runSearch bC supC okT probeT).cands.getD (0 + 1) cfg0).power_limit +
          stepPower =
        ((runSearch bC supC okT probeT).cands.getD 0 cfg0).power_limit :=
  ⟨by decide, c5_amended bC supC okT probeT 0 (by decide)⟩

/-- Claim C6 counterexample: the first element of the core-clock step
sequence IS applied and probed.  With a table whose graphics entries are
all strictly below the baseline graphics clock, the step sequence is
[-10, -20]; in a run with everything succeeding, the first applied
candidate has freq_offset = baseline.freq_offset + (-10) — the first
element — and it is recorded after a successful probe; the phase does
not start from the second element. -/
theorem c6_counterexample :
    freqStepsRun supD bC = [-10, -20] ∧
      (runSearch bC supD okT probeT).cands.map (fun c => c.freq_offset) =
        [-10, -20] ∧
      (runSearch bC supD okT probeT).recs.map (fun r => r.freq_offset) =
        [-10, -20] := by decide

/-- Claim C6 amended: the loop iterates the core-clock step sequence from
its FIRST element: applied candidate j has freq_offset equal to
baseline.freq_offset plus element j of the sequence (element 0 included,
whenever any candidate is applied at all); power_limit and mem_offset are
not held fixed but advance simultaneously. -/
theorem c6_amended (b : Baseline) (sup : Option SupportedClocks)
    (a : Nat → Ev → Bool) (p : Nat → Option BenchResult) (j : Nat)
    (hj : j < (runSearch b sup a p).cands.length) :
    ((runSearch b sup a p).cands.getD j cfg0).freq_offset =
        b.default_freq_offset + (freqStepsRun sup b).getD j 0 ∧
      ((runSearch b sup a p).cands.getD 0 cfg0).freq_offset =
        b.default_freq_offset + (freqStepsRun sup b).getD 0 0 := by
  have main : ∀ k, k < (runSearch b sup a p).cands.length →
      ((runSearch b sup a p).cands.getD k cfg0).freq_offset =
        b.default_freq_offset + (freqStepsRun sup b).getD k 0 := by
    intro k hk
    obtain ⟨h1, h2, h3⟩ := runLoop_cands_spec b a p
      (zip3 (freqStepsRun sup b) (memStepsRun sup b) (capStepsRun sup b))
      0 b.default_limit k hk
    rw [runSearch_cands, h1]
    unfold candAt
    rw [zip3_getD _ _ _ k h3]
  exact ⟨main j hj, main 0 (Nat.lt_of_le_of_lt (Nat.zero_le j) hj)⟩

/-- Witness for the amended C6 at a concrete run whose first step is a
nonzero offset. -/
theorem c6_amended_witness :
    0 < (runSearch bC supD okT probeT).cands.length ∧
      (((runSearch bC supD okT probeT).cands.getD 0 cfg0).freq_offset =
          bC.default_freq_offset + (freqStepsRun supD bC).getD 0 0 ∧
        ((runSearch bC supD okT probeT).cands.getD 0 cfg0).freq_offset =
          bC.default_freq_offset + (freqStepsRun supD bC).getD 0 0) :=
  ⟨by decide, c6_amended bC supD okT probeT 0 (by decide)⟩

/-- Claim C7: for every supported-clock list sorted ascending and every
baseline clock value, the computed step sequence consists of exactly the
offsets (supported clock minus baseline clock) for the supported clocks
that are at most the baseline clock, ordered descending, so every offset
is at most 0 and the first element is the smallest perturbation (the one
closest to zero). -/
theorem c7_offset_ordering (l : List Nat) (base : Nat)
    (hl : l.Sorted (· ≤ ·)) :
    offsetSteps l base =
        ((l.filter fun c => decide (c ≤ base)).map
          fun (c : Nat) => (c : Int) - (base : Int)).reverse ∧
      (offsetSteps l base).Sorted (· ≥ ·) ∧
      (∀ x ∈ offsetSteps l base, x ≤ 0) ∧
      (∀ x ∈ offsetSteps l base, x ≤ (offsetSteps l base).headI) := by
  have heq : offsetSteps l base =
      ((l.filter fun c => decide (c ≤ base)).map
        fun (c : Nat) => (c : Int) - (base : Int)).reverse := by
    simp [offsetSteps, List.filter_reverse, List.map_reverse]
  have hsorted : (offsetSteps l base).Sorted (· ≥ ·) := by
    unfold offsetSteps List.Sorted
    rw [List.pairwise_map]
    apply List.Pairwise.filter
    rw [List.pairwise_reverse]
    exact hl.imp (fun h => by omega)
  have hle : ∀ x ∈ offsetSteps l base, x ≤ 0 := by
    intro x hx
    unfold offsetSteps at hx
    simp only [List.mem_map, List.mem_filter, List.mem_reverse] at hx
    obtain ⟨c, ⟨_, hc⟩, rfl⟩ := hx
    have := of_decide_eq_true hc
    omega
  refine ⟨heq, hsorted, hle, ?_⟩
  intro x hx
  cases hs : offsetSteps l base with
  | nil => rw [hs] at hx; simp at hx
  | cons a t =>
    rw [hs] at hx hsorted
    simp only [List.headI]
    rcases List.mem_cons.mp hx with rfl | hxt
    · exact le_refl x
    · exact List.rel_of_sorted_cons hsorted x hxt

/-- Witness for C7 on the sorted list [1980, 1990, 2000] with baseline
1990: the steps are [0, -10]. -/
theorem c7_witness :
    ([1980, 1990, 2000] : List Nat).Sorted (· ≤ ·) ∧
      (offsetSteps [1980, 1990, 2000] 1990 =
          ((([1980, 1990, 2000] : List Nat).filter
              fun c => decide (c ≤ 1990)).map
            fun (c : Nat) => (c : Int) - (1990 : Int)).reverse ∧
        (offsetSteps [1980, 1990, 2000] 1990).Sorted (· ≥ ·) ∧
        (∀ x ∈ offsetSteps [1980, 1990, 2000] 1990, x ≤ 0) ∧
        (∀ x ∈ offsetSteps [1980, 1990, 2000] 1990,
          x ≤ (offsetSteps [1980, 1990, 2000] 1990).headI)) :=
  ⟨by decide, c7_offset_ordering [1980, 1990, 2000] 1990 (by decide)⟩

/-- Claim C8: a record exists at index j of the record sequence only for
a candidate whose four sub-writes all succeeded (it is among the probed
candidates, and only successfully applied candidates are probed) and
whose probe call returned a score/power pair, whose values the record
carries; records are indexed in probe-call (chronological) order. -/
theorem c8_record_integrity (b : Baseline) (sup : Option SupportedClocks)
    (a : Nat → Ev → Bool) (p : Nat → Option BenchResult) :
    (∀ j, j < (runSearch b sup a p).recs.length →
      ∃ r : BenchResult, p j = some r ∧
        ((runSearch b sup a p).recs.getD j rec0).score = r.score ∧
        ((runSearch b sup a p).recs.getD j rec0).avg_power = r.avg_power ∧
        (j, configOf ((runSearch b sup a p).recs.getD j rec0)) ∈
          (runSearch b sup a p).probed) ∧
    (∀ q ∈ (runSearch b sup a p).probed, applyAll (a q.1) q.2 = true) := by
  constructor
  · intro j hj
    rw [runSearch_recs] at hj ⊢
    rw [runSearch_probed]
    obtain ⟨r, hr, hrec⟩ := runLoop_recs_spec b a p
      (zip3 (freqStepsRun sup b) (memStepsRun sup b) (capStepsRun sup b))
      0 b.default_limit j hj
    refine ⟨r, by simpa using hr, by rw [hrec]; rfl, by rw [hrec]; rfl, ?_⟩
    have hlen := runLoop_len_spec b a p
      (zip3 (freqStepsRun sup b) (memStepsRun sup b) (capStepsRun sup b))
      0 b.default_limit
    have hjp : j < (runLoop b a p
        (zip3 (freqStepsRun sup b) (memStepsRun sup b) (capStepsRun sup b))
        0 b.default_limit).probed.length := lt_of_lt_of_le hj hlen.1
    obtain ⟨hp1, _⟩ := runLoop_probed_spec b a p
      (zip3 (freqStepsRun sup b) (memStepsRun sup b) (capStepsRun sup b))
      0 b.default_limit j hjp
    have hcfg : configOf ((runLoop b a p
        (zip3 (freqStepsRun sup b) (memStepsRun sup b) (capStepsRun sup b))
        0 b.default_limit).recs.getD j rec0) =
        candAt b b.default_limit
          (zip3 (freqStepsRun sup b) (memStepsRun sup b) (capStepsRun sup b))
          j := by
      rw [hrec]; rfl
    rw [hcfg]
    have hpair : (j, candAt b b.default_limit
        (zip3 (freqStepsRun sup b) (memStepsRun sup b) (capStepsRun sup b)) j) =
        (runLoop b a p
          (zip3 (freqStepsRun sup b) (memStepsRun sup b) (capStepsRun sup b))
          0 b.default_limit).probed.getD j (0, cfg0) := by
      rw [hp1]
      simp
    rw [hpair, List.getD_eq_getElem _ _ hjp]
    exact List.getElem_mem hjp
  · intro q hq
    rw [runSearch_probed] at hq
    obtain ⟨⟨n, hn⟩, rfl⟩ := List.mem_iff_get.mp hq
    obtain ⟨hp1, hp2⟩ := runLoop_probed_spec b a p
      (zip3 (freqStepsRun sup b) (memStepsRun sup b) (capStepsRun sup b))
      0 b.default_limit n hn
    have hD : (runLoop b a p
        (zip3 (freqStepsRun sup b) (memStepsRun sup b) (capStepsRun sup b))
        0 b.default_limit).probed.get ⟨n, hn⟩ =
        (runLoop b a p
          (zip3 (freqStepsRun sup b) (memStepsRun sup b) (capStepsRun sup b))
          0 b.default_limit).probed.getD n (0, cfg0) := by
      rw [List.getD_eq_getElem _ _ hn]
      rfl
    rw [hD, hp1]
    simpa using hp2

/-- Witness for C8: in a concrete successful run, record 0 corresponds to
a probed (hence fully applied) candidate. -/
theorem c8_witness :
    (0, configOf ((runSearch bC supC okT probeT).recs.getD 0 rec0)) ∈
      (runSearch bC supC okT probeT).probed := by
  obtain ⟨r, _, _, _, hm⟩ :=
    (c8_record_integrity bC supC okT probeT).1 0 (by decide)
  exact hm

/-- Claim C9: writing records to a fresh store produces exactly one
header line followed by one comma-separated data line per record in
creation order; each data line holds the power limit in whole watts
(milliwatts divided by 1000), the frequency offset, the memory offset,
the min clock, the max clock, the score rounded to an integer, and the
average power with two decimal places (see `dataLine`). -/
theorem c9_persistence (rs : List Record) (hrs : rs ≠ []) :
    saveAll rs = some (header :: rs.map dataLine) := by
  cases rs with
  | nil => exact absurd rfl hrs
  | cons r rest =>
    show (r :: rest).foldl saveRecord none = _
    rw [List.foldl_cons]
    show rest.foldl saveRecord (some [header, dataLine r]) = _
    rw [saveAll_go]
    simp

/-- Witness for C9 on a one-record store. -/
theorem c9_witness :
    ([(⟨150000, -10, -100, 0, 1990, mkRat 7 2, mkRat 123 100⟩ : Record)] ≠
        ([] : List Record)) ∧
      saveAll [(⟨150000, -10, -100, 0, 1990, mkRat 7 2, mkRat 123 100⟩ : Record)] =
        some (header ::
          ([(⟨150000, -10, -100, 0, 1990, mkRat 7 2, mkRat 123 100⟩ : Record)]).map
            dataLine) :=
  ⟨by decide, c9_persistence _ (by decide)⟩

/-- Claim C10: the candidate loop performs at most
min(|freq steps|, |mem steps|, |clock-cap steps|) iterations, advancing
all three axes in lockstep (element j of each sequence at candidate j);
if the table is absent or any one axis yields no steps, zero candidates
are applied or probed and zero records are produced.  (The run always
terminates: the loop is a total structural recursion over the zipped
step list.) -/
theorem c10_lockstep (b : Baseline) (sup : Option SupportedClocks)
    (a : Nat → Ev → Bool) (p : Nat → Option BenchResult) :
    (runSearch b sup a p).cands.length ≤
        min (freqStepsRun sup b).length
          (min (memStepsRun sup b).length (capStepsRun sup b).length) ∧
    (∀ j, j < (runSearch b sup a p).cands.length →
      (runSearch b sup a p).cands.getD j cfg0 =
        ⟨b.default_limit - stepPower * (j + 1),
         b.default_freq_offset + (freqStepsRun sup b).getD j 0,
         b.default_mem_offset + (memStepsRun sup b).getD j 0,
         0, (capStepsRun sup b).getD j 0⟩) ∧
    (freqStepsRun sup b = [] ∨ memStepsRun sup b = [] ∨
        capStepsRun sup b = [] →
      (runSearch b sup a p).cands = [] ∧
        (runSearch b sup a p).probed = [] ∧
        (runSearch b sup a p).recs = []) := by
  have hlen := runLoop_len_spec b a p
    (zip3 (freqStepsRun sup b) (memStepsRun sup b) (capStepsRun sup b))
    0 b.default_limit
  have hmin : (zip3 (freqStepsRun sup b) (memStepsRun sup b)
      (capStepsRun sup b)).length =
      min (freqStepsRun sup b).length
        (min (memStepsRun sup b).length (capStepsRun sup b).length) :=
    zip3_length _ _ _
  refine ⟨?_, ?_, ?_⟩
  · rw [runSearch_cands, ← hmin]
    exact hlen.2.2
  · intro j hj
    obtain ⟨h1, _, h3⟩ := runLoop_cands_spec b a p
      (zip3 (freqStepsRun sup b) (memStepsRun sup b) (capStepsRun sup b))
      0 b.default_limit j hj
    rw [runSearch_cands, h1]
    unfold candAt
    rw [zip3_getD _ _ _ j h3]
  · intro hempty
    have h0 : (zip3 (freqStepsRun sup b) (memStepsRun sup b)
        (capStepsRun sup b)).length = 0 := by
      rw [hmin]
      rcases hempty with h | h | h <;> simp [h]
    have hc : (runSearch b sup a p).cands = [] := by
      rw [runSearch_cands]
      have := hlen.2.2
      rw [h0] at this
      exact List.eq_nil_of_length_eq_zero (Nat.le_zero.mp this)
    have hpd : (runSearch b sup a p).probed = [] := by
      rw [runSearch_probed]
      have h1 := hlen.2.1
      have h2 := hlen.2.2
      rw [h0] at h2
      exact List.eq_nil_of_length_eq_zero (Nat.le_zero.mp (h1.trans h2))
    have hr : (runSearch b sup a p).recs = [] := by
      rw [runSearch_recs]
      have h1 := hlen.1
      have h2 := hlen.2.1
      have h3 := hlen.2.2
      rw [h0] at h3
      exact List.eq_nil_of_length_eq_zero
        (Nat.le_zero.mp ((h1.trans h2).trans h3))
    exact ⟨hc, hpd, hr⟩

/-- Witness for C10: with the table absent every axis is empty, so the
run applies, probes and records nothing. -/
theorem c10_witness :
    (runSearch bA none okT probeT).cands = [] ∧
      (runSearch bA none okT probeT).probed = [] ∧
      (runSearch bA none okT probeT).recs = [] :=
  (c10_lockstep bA none okT probeT).2.2 (Or.inl rfl)

end NvidiaOc
